import Mathlib

/-!
# Verification of the nifpga fixed-point codec and flattened-type parser

Shallow embedding of `src/nifpga/nifpga.py`, the bit-level codec for FPGA
register values: the fixed-point / complex fixed-point / cluster datatypes
(`_fixpointFromBoolArray`, `_fixpointToBoolArray`, `FixpointDatatype`,
`ComplexFixpointDatatype`, `ClusterDatatype`) and the flattened-type parser
(`_parseFixpoint`, `_parseCluster`, `parseFlattenedCluster`).

Modelling conventions:

* numpy `uint8` bit arrays become `List Bool`, most-significant bit first;
* Python numbers (ints, floats, numpy scalars) become `ℚ`.  The Python code
  routes values through IEEE float64, which is exact for the integer ranges
  the library targets (per-lane widths that fit a 64-bit accumulator and a
  52-bit significand); the embedding uses exact rational arithmetic;
* a Python complex number becomes a pair `ℚ × ℚ` of (real, imaginary) parts;
* exceptions (`raise`, failed `assert`, `int()` conversion errors, index and
  key errors) become `Except PyErr`;
* Python `x & (1 << b) != 0` on an arbitrary-precision int tests bit `b` of
  the two's-complement representation, embedded as `x / 2 ^ b % 2 = 1` with
  Euclidean division (identical to floor division for positive powers of 2,
  hence to Python's arithmetic shift);
* Python dicts (insertion-ordered, unique keys) become association lists
  with an update operation `dictSet` that replaces in place or appends.
-/

/-- Python exception classes raised by the nifpga codec/parser code. -/
inductive PyErr where
  | runtimeError (msg : String)
  | assertionError (msg : String)
  | valueError (msg : String)
  | indexError (msg : String)
  | keyError (key : String)
  | typeError (msg : String)
deriving DecidableEq, Repr

deriving instance DecidableEq for Except

/-- The unsigned value of a bit list read most-significant bit first:
`(boolArray * 2**arange(num_bits)[::-1]).sum()` in `_fixpointFromBoolArray`. -/
def msbValue : List Bool → ℕ
  | [] => 0
  | b :: rest => (if b then 2 ^ rest.length else 0) + msbValue rest

/-- Bit `b` (counted from the least-significant end) of the two's-complement
integer `a`: Python's `(as_int & (1 << b)) != 0` in `_fixpointToBoolArray`. -/
def intBit (a : ℤ) (b : ℕ) : Bool := decide (a / 2 ^ b % 2 = 1)

/-- Fuel-driven floor of the base-2 logarithm: `log2Fuel n n` is
`⌊log₂ n⌋` for `n ≥ 1` (the fuel `n` always suffices, since the argument
halves at each step).  Used to locate the leading bit when rounding an
integer to float64 precision. -/
def log2Fuel : ℕ → ℕ → ℕ
  | 0, _ => 0
  | fuel + 1, n => if n ≤ 1 then 0 else log2Fuel fuel (n / 2) + 1

/-- IEEE-754 float64 rounding of a natural number: round to the nearest
value with at most 53 significand bits, ties to the even significand.
For inputs below `2 ^ 64` (the decode path's `uint64` range) the rounded
value is an integer, so the conversion is modelled exactly on `ℕ`. -/
def fl64Nat (n : ℕ) : ℕ :=
  if n < 2 ^ 53 then n
  else
    let e := (log2Fuel n n + 1) - 53
    let q := n / 2 ^ e
    let r := n % 2 ^ e
    let q2 :=
      if r * 2 < 2 ^ e then q
      else if 2 ^ e < r * 2 then q + 1
      else if q % 2 = 0 then q else q + 1
    q2 * 2 ^ e

/-- IEEE-754 float64 rounding of an integer (symmetric in sign).  This is
what classic numpy applies when an `np.uint64` meets a Python `int` (the
pair is promoted to `float64`) and when `float(value)` converts an integer
accumulator. -/
def fl64 (n : ℤ) : ℤ := if 0 ≤ n then fl64Nat n.toNat else -(fl64Nat (-n).toNat)

/-- `np.round`: round to the nearest integer, ties to the even integer. -/
def roundHalfEven (q : ℚ) : ℤ :=
  let f := ⌊q⌋
  let r := q - f
  if r < 1 / 2 then f
  else if 1 / 2 < r then f + 1
  else if f % 2 = 0 then f else f + 1

/-- `_fixpointFromBoolArray(integer, fractional, signed, boolArray)`:
interpret an MSB-first bit list as a (possibly signed) fixed-point value.
Mirrors the source line by line for `num_bits ≤ 64` (beyond that the
source's `2**np.arange(num_bits, dtype=np.uint64)` power table overflows):
length assert, unsigned MSB-first sum in a `uint64` accumulator, then the
two's-complement correction `value - 2**num_bits` when `signed and
boolArray[0]` (an empty array raises `IndexError` there).  That
subtraction mixes `np.uint64` with a Python `int`, which classic numpy
computes in `float64`: the accumulator is rounded by `fl64`, after which
the subtraction itself is exact (both operands are representable — the
accumulator has its top bit set — and the difference fits in 53
significand bits).  The final division is `float(value) / 2**fractional`
for `fractional > 0` (`float()` rounds an integer accumulator by `fl64`,
and a rounded value is a `fl64` fixed point; dividing by a power of two is
then exact), integer floor division by `2**0 = 1` for `fractional == 0`
(no float conversion), and floor division by the Python float
`2**fractional` for `fractional < 0` (which promotes, hence `fl64`-rounds,
the accumulator before the exact power-of-two scaling). -/
def _fixpointFromBoolArray (integer fractional : ℤ) (signed : Bool)
    (boolArray : List Bool) : Except PyErr ℚ :=
  let num_bits := integer + fractional
  if (boolArray.length : ℤ) ≠ num_bits then
    .error (.assertionError "len(boolArray) == num_bits")
  else
    let value : ℤ := (msbValue boolArray : ℤ)
    let adjusted : Except PyErr ℤ :=
      if signed then
        match boolArray with
        | [] => .error (.indexError "boolArray[0]")
        | b0 :: _ => .ok (if b0 then fl64 value - 2 ^ num_bits.toNat else value)
      else .ok value
    match adjusted with
    | .error e => .error e
    | .ok value =>
      if fractional > 0 then .ok ((fl64 value : ℚ) / (2 : ℚ) ^ fractional)
      else if fractional = 0 then
        .ok ((⌊(value : ℚ) / (2 : ℚ) ^ fractional⌋ : ℤ) : ℚ)
      else .ok ((⌊(fl64 value : ℚ) / (2 : ℚ) ^ fractional⌋ : ℤ) : ℚ)

/-- `_fixpointToBoolArray(integer, fractional, signed, value)`: scale by
`2**fractional`, round to nearest (`np.round`, ties to even), and emit the
low `num_bits` two's-complement bits, most-significant first.  A negative
value with `signed=False` raises `RuntimeError`. -/
def _fixpointToBoolArray (integer fractional : ℤ) (signed : Bool)
    (value : ℚ) : Except PyErr (List Bool) :=
  if value < 0 ∧ signed = false then
    .error (.runtimeError "Unsigned value cannot create negative number")
  else
    let num_bits := integer + fractional
    let as_int : ℤ := roundHalfEven (value * (2 : ℚ) ^ fractional)
    .ok ((List.range num_bits.toNat).reverse.map (fun b => intBit as_int b))

/-- `FixpointDatatype(name, integer, fractional, signed)`.  The source
constructor stores the fields and sets `num_bits = integer + fractional`
without any validation. -/
structure FixpointDatatype where
  name : String
  integer : ℤ
  fractional : ℤ
  signed : Bool
deriving DecidableEq, Repr

def FixpointDatatype.num_bits (d : FixpointDatatype) : ℤ := d.integer + d.fractional

def FixpointDatatype.toBoolArray (d : FixpointDatatype) (data : ℚ) :
    Except PyErr (List Bool) :=
  _fixpointToBoolArray d.integer d.fractional d.signed data

def FixpointDatatype.fromBoolArray (d : FixpointDatatype) (boolArray : List Bool) :
    Except PyErr ℚ :=
  _fixpointFromBoolArray d.integer d.fractional d.signed boolArray

/-- `FixpointDatatype.getEmptyValue`: returns `0`. -/
def FixpointDatatype.getEmptyValue (_ : FixpointDatatype) : ℚ := 0

/-- `FixpointDatatype.__str__`: `"I%d.%d (%d bits)"` / `"U%d.%d (%d bits)"`. -/
def FixpointDatatype.str (d : FixpointDatatype) : String :=
  (if d.signed then "I" else "U") ++ toString d.integer ++ "." ++
    toString d.fractional ++ " (" ++ toString d.num_bits ++ " bits)"

/-- `ComplexFixpointDatatype(name, integer, fractional)`: two always-signed
fixed-point lanes; `num_bits = 2*(integer+fractional)`. -/
structure ComplexFixpointDatatype where
  name : String
  integer : ℤ
  fractional : ℤ
deriving DecidableEq, Repr

def ComplexFixpointDatatype.num_bits (d : ComplexFixpointDatatype) : ℤ :=
  2 * (d.integer + d.fractional)

/-- `ComplexFixpointDatatype.toBoolArray`: encode `np.real(data)` then
`np.imag(data)` with the signed fixed-point rule and concatenate
(`np.hstack`).  The complex argument is the pair `(re, im)`. -/
def ComplexFixpointDatatype.toBoolArray (d : ComplexFixpointDatatype)
    (re im : ℚ) : Except PyErr (List Bool) :=
  match _fixpointToBoolArray d.integer d.fractional true re with
  | .error e => .error e
  | .ok bits_real =>
    match _fixpointToBoolArray d.integer d.fractional true im with
    | .error e => .error e
    | .ok bits_imag => .ok (bits_real ++ bits_imag)

/-- `ComplexFixpointDatatype.fromBoolArray`: split at `half = num_bits // 2`,
decode both halves as signed lanes, return `real + 1j*imag` (the pair). -/
def ComplexFixpointDatatype.fromBoolArray (d : ComplexFixpointDatatype)
    (boolarray : List Bool) : Except PyErr (ℚ × ℚ) :=
  let half : ℤ := d.num_bits / 2
  match _fixpointFromBoolArray d.integer d.fractional true (boolarray.take half.toNat) with
  | .error e => .error e
  | .ok real =>
    match _fixpointFromBoolArray d.integer d.fractional true (boolarray.drop half.toNat) with
    | .error e => .error e
    | .ok imag => .ok (real, imag)

/-- `ComplexFixpointDatatype.getEmptyValue`: `0+0j`. -/
def ComplexFixpointDatatype.getEmptyValue (_ : ComplexFixpointDatatype) : ℚ × ℚ :=
  (0, 0)

/-- `ComplexFixpointDatatype.__str__`: `"C%d.%d (%d bits)"`. -/
def ComplexFixpointDatatype.str (d : ComplexFixpointDatatype) : String :=
  "C" ++ toString d.integer ++ "." ++ toString d.fractional ++ " (" ++
    toString d.num_bits ++ " bits)"

/-- A cluster element type: the source's `_parseCluster` only ever places
`FixpointDatatype` or `ComplexFixpointDatatype` instances in a cluster. -/
inductive ElementType where
  | fxp (d : FixpointDatatype)
  | cfxp (d : ComplexFixpointDatatype)
deriving DecidableEq, Repr

def ElementType.num_bits : ElementType → ℤ
  | .fxp d => d.num_bits
  | .cfxp d => d.num_bits

def ElementType.str : ElementType → String
  | .fxp d => d.str
  | .cfxp d => d.str

def ElementType.integerBits : ElementType → ℤ
  | .fxp d => d.integer
  | .cfxp d => d.integer

def ElementType.fractionalBits : ElementType → ℤ
  | .fxp d => d.fractional
  | .cfxp d => d.fractional

def ElementType.isSigned : ElementType → Bool
  | .fxp d => d.signed
  | .cfxp _ => true

/-- A Python value stored in a cluster's `dotdict`: a numeric scalar, a
complex scalar, or the nested `__types__` string dict. -/
inductive PyValue where
  | num (q : ℚ)
  | cnum (re im : ℚ)
  | typesDict (entries : List (String × String))
deriving DecidableEq, Repr

/-- A Python `dict`/`dotdict`: insertion-ordered association list with
unique keys (maintained by `dictSet`). -/
abbrev PyDict := List (String × PyValue)

def dictKeys (d : PyDict) : List String := d.map Prod.fst

def dictGet? (d : PyDict) (k : String) : Option PyValue :=
  (d.find? (fun e => e.1 == k)).map Prod.snd

/-- `d[k] = v` on a Python dict: replace the entry in place if the key is
present, append otherwise. -/
def dictSet (d : PyDict) (k : String) (v : PyValue) : PyDict :=
  if d.any (fun e => e.1 == k) then
    d.map (fun e => if e.1 == k then (k, v) else e)
  else d ++ [(k, v)]

/-- Same update operation for the inner `__types__` dict of strings. -/
def strDictSet (d : List (String × String)) (k v : String) :
    List (String × String) :=
  if d.any (fun e => e.1 == k) then
    d.map (fun e => if e.1 == k then (k, v) else e)
  else d ++ [(k, v)]

/-- `result['__types__'][name] = s`: update the string dict stored under the
`"__types__"` key.  (In the source this entry is always the inner dotdict
created by `getEmptyValue`; a non-dict entry is left unchanged here, a state
the source never reaches.) -/
def setTypesEntry (d : PyDict) (name s : String) : PyDict :=
  d.map (fun e =>
    if e.1 == "__types__" then
      match e.2 with
      | .typesDict m => ("__types__", .typesDict (strDictSet m name s))
      | _ => e
    else e)

/-- `ClusterDatatype(elements)`: ordered `(field name, element type)` pairs;
`num_bits` is the sum of the element widths. -/
structure ClusterDatatype where
  elements : List (String × ElementType)
deriving DecidableEq, Repr

def ClusterDatatype.num_bits (c : ClusterDatatype) : ℤ :=
  (c.elements.map (fun e => e.2.num_bits)).sum

/-- Element-level empty value, as a `PyValue`. -/
def ElementType.getEmptyValue : ElementType → PyValue
  | .fxp _ => .num 0
  | .cfxp _ => .cnum 0 0

/-- `ClusterDatatype.getEmptyValue`: create a dotdict, insert an empty
`__types__` dict, then for each element set `result[name] = empty` and
`result['__types__'][name] = str(typ)`, in declaration order. -/
def ClusterDatatype.getEmptyValue (c : ClusterDatatype) : PyDict :=
  c.elements.foldl
    (fun result e =>
      setTypesEntry (dictSet result e.1 e.2.getEmptyValue) e.1 e.2.str)
    (dictSet [] "__types__" (.typesDict []))

/-- Dispatch `typ.toBoolArray(value[name])` on the stored `PyValue`.  A
fixed-point element applied to a complex value (or to the `__types__` dict)
raises `TypeError` in Python (`value < 0` is unordered); a complex element
applied to a real scalar works via `np.real`/`np.imag`. -/
def ElementType.toBoolArray : ElementType → PyValue → Except PyErr (List Bool)
  | .fxp d, .num q => d.toBoolArray q
  | .fxp _, _ => .error (.typeError "unorderable value in comparison with 0")
  | .cfxp d, .num q => d.toBoolArray q 0
  | .cfxp d, .cnum re im => d.toBoolArray re im
  | .cfxp _, .typesDict _ => .error (.typeError "np.real of a dict")

def ElementType.fromBoolArray : ElementType → List Bool → Except PyErr PyValue
  | .fxp d, bits =>
    match d.fromBoolArray bits with
    | .error e => .error e
    | .ok q => .ok (.num q)
  | .cfxp d, bits =>
    match d.fromBoolArray bits with
    | .error e => .error e
    | .ok (re, im) => .ok (.cnum re im)

/-- The list comprehension `[typ.toBoolArray(value[name]) for name, typ in
self._elements]` of `ClusterDatatype.toBoolArray`, with dict lookup. -/
def collectParts : List (String × ElementType) → PyDict →
    Except PyErr (List (List Bool))
  | [], _ => .ok []
  | (name, typ) :: rest, value =>
    match dictGet? value name with
    | none => .error (.keyError name)
    | some v =>
      match typ.toBoolArray v with
      | .error e => .error e
      | .ok part =>
        match collectParts rest value with
        | .error e => .error e
        | .ok parts => .ok (part :: parts)

/-- Python `set(a) == set(b)` for string lists: mutual membership. -/
def sameStringSet (a b : List String) : Bool :=
  a.all (fun x => b.contains x) && b.all (fun x => a.contains x)

/-- `ClusterDatatype.toBoolArray(value)`: check that the value's keys minus
`"__types__"` equal the declared field names as sets, encode every field in
declared order, concatenate (`np.hstack`), and assert the total length. -/
def ClusterDatatype.toBoolArray (c : ClusterDatatype) (value : PyDict) :
    Except PyErr (List Bool) :=
  let input_fields := (dictKeys value).filter (fun k => ¬ (k == "__types__"))
  let expected_fields := c.elements.map Prod.fst
  if ¬ sameStringSet input_fields expected_fields then
    .error (.runtimeError "Mismatching fields of cluster!")
  else
    match collectParts c.elements value with
    | .error e => .error e
    | .ok parts =>
      let result := parts.flatten
      if (result.length : ℤ) ≠ c.num_bits then
        .error (.assertionError "len(result) == self.num_bits")
      else .ok result

/-- The decoding loop of `ClusterDatatype.fromBoolArray`: slice
`boolarray[index : index + typ.num_bits]`, decode, store under the field
name, advance the index. -/
def clusterFromAux : List (String × ElementType) → List Bool → ℕ → PyDict →
    Except PyErr PyDict
  | [], _, _, result => .ok result
  | (name, typ) :: rest, boolarray, index, result =>
    let part := (boolarray.drop index).take typ.num_bits.toNat
    match typ.fromBoolArray part with
    | .error e => .error e
    | .ok v => clusterFromAux rest boolarray (index + typ.num_bits.toNat)
        (dictSet result name v)

/-- `ClusterDatatype.fromBoolArray(boolarray)`: assert the length, start
from `getEmptyValue`, and run the decoding loop. -/
def ClusterDatatype.fromBoolArray (c : ClusterDatatype) (boolarray : List Bool) :
    Except PyErr PyDict :=
  if (boolarray.length : ℤ) ≠ c.num_bits then
    .error (.assertionError "len(boolarray) == self.num_bits")
  else clusterFromAux c.elements boolarray 0 c.getEmptyValue

/-- `TYPE_TO_NUMBER`: the inversion of `NUMBER_TO_TYPES` plus the extra
`"BOOLEAN"` key, mapping type tags to 4-character codes. -/
def TYPE_TO_NUMBER (t : String) : Option String :=
  ([("I8", "4001"), ("I16", "4002"), ("I32", "4003"), ("I64", "4004"),
    ("U8", "4005"), ("U16", "4006"), ("U32", "4007"), ("U64", "4008"),
    ("Bool", "4021"), ("FXP", "405F"), ("CFXP", "405E"),
    ("BOOLEAN", "4021")].find? (fun e => e.1 == t)).map Prod.snd

/-- `TYPE_TO_BITS`: bit widths of the plain integer/boolean tags. -/
def TYPE_TO_BITS (t : String) : Option ℕ :=
  ([("I8", 8), ("I16", 16), ("I32", 32), ("I64", 64),
    ("U8", 8), ("U16", 16), ("U32", 32), ("U64", 64),
    ("BOOLEAN", 1)].find? (fun e => e.1 == t)).map Prod.snd

/-- The value of one hexadecimal digit character, if any. -/
def hexDigitVal? (c : Char) : Option ℕ :=
  if '0' ≤ c ∧ c ≤ '9' then some (c.toNat - '0'.toNat)
  else if 'a' ≤ c ∧ c ≤ 'f' then some (c.toNat - 'a'.toNat + 10)
  else if 'A' ≤ c ∧ c ≤ 'F' then some (c.toNat - 'A'.toNat + 10)
  else none

/-- The value of one decimal digit character, if any. -/
def decDigitVal? (c : Char) : Option ℕ :=
  if '0' ≤ c ∧ c ≤ '9' then some (c.toNat - '0'.toNat) else none

/-- Fold a digit-valuation function over a string's characters.
`none` (Python `ValueError`) on an empty string or any invalid digit. -/
def parseDigits (digit : Char → Option ℕ) (base : ℕ) (s : List Char) : Option ℕ :=
  match s with
  | [] => none
  | _ =>
    s.foldl
      (fun acc c =>
        match acc, digit c with
        | some n, some d => some (n * base + d)
        | _, _ => none)
      (some 0)

/-- Python `int(s, 16)` for a plain string of hex digits (the only form the
flattened-type descriptors contain). -/
def pyIntHex? (s : List Char) : Option ℕ := parseDigits hexDigitVal? 16 s

/-- Python `int(s)` for a plain string of decimal digits. -/
def pyIntDec? (s : List Char) : Option ℕ := parseDigits decDigitVal? 10 s

/-- Python `str.find`: index of the first occurrence of `pattern` in `text`,
`none` standing for the `-1` of a failed search. -/
def pyFindAux (pattern : List Char) : List Char → ℕ → Option ℕ
  | [], i => if pattern = [] then some i else none
  | c :: rest, i =>
    if pattern.isPrefixOf (c :: rest) then some i else pyFindAux pattern rest (i + 1)

def pyFind (text pattern : List Char) : Option ℕ := pyFindAux pattern text 0

/-- `_parseFixpoint(t, flattened)`: `flattened` must begin with the tag's
4-character code; the total width is the hex field `flattened[8:12]`, the
front offset the hex field `flattened[16:20]` (reinterpreted as a negative
two's-complement 16-bit value when it exceeds `2**15 - 1`), and the signed
flag the decimal field `flattened[20:24]`.  Builds a `FixpointDatatype` for
the `"FXP"` tag and a `ComplexFixpointDatatype` for `"CFXP"`. -/
def _parseFixpoint (t : String) (flattened : List Char) :
    Except PyErr ElementType :=
  match TYPE_TO_NUMBER t with
  | none => .error (.runtimeError ("type " ++ t ++ " not supported"))
  | some code =>
    if flattened.take 4 ≠ code.toList then
      .error (.assertionError "flattened[:4] == TYPE_TO_NUMBER[t]")
    else
      match pyIntDec? ((flattened.drop 20).take 4) with
      | none => .error (.valueError "int(flattened[20:24])")
      | some signedVal =>
        match pyIntHex? ((flattened.drop 8).take 4) with
        | none => .error (.valueError "int(fullStr, 16)")
        | some fullVal =>
          match pyIntHex? ((flattened.drop 16).take 4) with
          | none => .error (.valueError "int(frontStr, 16)")
          | some frontVal =>
            let full : ℤ := fullVal
            let front : ℤ := frontVal
            let front : ℤ := if front > 2 ^ 15 - 1 then front - 2 ^ 16 else front
            let name : String :=
              (if signedVal ≠ 0 then "I" else "U") ++ toString front ++ "." ++
                toString (full - front)
            if t = "FXP" then
              .ok (.fxp ⟨name, front, full - front, decide (signedVal ≠ 0)⟩)
            else if t = "CFXP" then
              .ok (.cfxp ⟨name, front, full - front⟩)
            else .error (.runtimeError ("Unknown fixpoint type: " ++ t))

/-- Python `str.upper()`, character by character. -/
def pyUpper (s : String) : String := ⟨s.data.map Char.toUpper⟩

/-- The error message of `_parseCluster`'s failed search:
`"Could not find type %s at %dth position!" % (t, p)`. -/
def couldNotFindMsg (t : String) (p : ℕ) : String :=
  "Could not find type " ++ t ++ " at " ++ toString p ++ "th position!"

/-- The per-tag branch of `_parseCluster`'s loop body, applied to the text
already truncated to start at the tag code's occurrence: fixed-point tags
delegate to `_parseFixpoint`, the boolean tag synthesizes a 1-bit unsigned
fixed-point, any other tag an N-bit integer fixed-point (signed when the
tag starts with `'I'`, width from `TYPE_TO_BITS`). -/
def parseClusterElem (t : String) (flattened : List Char) :
    Except PyErr ElementType :=
  if t = "FXP" ∨ t = "CFXP" then _parseFixpoint t flattened
  else if pyUpper t = "BOOLEAN" then .ok (.fxp ⟨"Boolean", 1, 0, false⟩)
  else
    match TYPE_TO_BITS t with
    | none => .error (.keyError t)
    | some bits =>
      .ok (.fxp ⟨"t", (bits : ℤ), 0, decide (t.toList.head? = some 'I')⟩)

/-- The loop of `_parseCluster(types, flattened)` with the running ordinal
`p`: look up the tag's code, `find` it in the remaining text (error
`couldNotFindMsg` at `-1`), truncate the text to start at the occurrence,
parse the element there, then advance past the code's length. -/
def parseClusterAux : List String → List Char → ℕ → Except PyErr (List ElementType)
  | [], _, _ => .ok []
  | t :: rest, flattened, p =>
    match TYPE_TO_NUMBER t with
    | none => .error (.runtimeError ("Type " ++ t ++ " not supported in cluster"))
    | some typeStr =>
      match pyFind flattened typeStr.toList with
      | none => .error (.runtimeError (couldNotFindMsg t p))
      | some pos =>
        let flattened := flattened.drop pos
        match parseClusterElem t flattened with
        | .error e => .error e
        | .ok elem =>
          match parseClusterAux rest (flattened.drop typeStr.toList.length) (p + 1) with
          | .error e => .error e
          | .ok restElems => .ok (elem :: restElems)

def _parseCluster (types : List String) (flattened : List Char) :
    Except PyErr (List ElementType) :=
  parseClusterAux types flattened 0

/-- The assertion message of `parseFlattenedCluster`:
`"Bitcount %d not equal expected value %d for cluster %s"`. -/
def bitcountMsg (computed declared : ℤ) (clusterName : String) : String :=
  "Bitcount " ++ toString computed ++ " not equal expected value " ++
    toString declared ++ " for cluster " ++ clusterName

/-- The cluster-assembly tail of `parseFlattenedCluster` (lines 277-282),
after the XML metadata adapter has produced the ordered field `names`, the
parsed `typeDetails` and the declared `SizeInBits` value: sum the parsed
widths, assert the sum equals the declared bit count, and zip names with
types into a `ClusterDatatype`. -/
def parseFlattenedClusterCore (names : List String) (typeDetails : List ElementType)
    (bitCount_fromXML : ℤ) (clusterName : String) : Except PyErr ClusterDatatype :=
  let bitCount : ℤ := (typeDetails.map ElementType.num_bits).sum
  if bitCount ≠ bitCount_fromXML then
    .error (.assertionError (bitcountMsg bitCount bitCount_fromXML clusterName))
  else .ok ⟨names.zip typeDetails⟩

/-- The two's-complement reading of an MSB-first bit list described by the
spec's decode algorithm: the unsigned value, minus `2 ^ num_bits` exactly
when `signed` and the most-significant bit is 1. -/
def twosValue (signed : Bool) (bits : List Bool) : ℤ :=
  if signed = true ∧ bits.head? = some true then
    (msbValue bits : ℤ) - 2 ^ bits.length
  else (msbValue bits : ℤ)

/-! ## Bit-level lemmas -/

theorem msbValue_lt (bits : List Bool) : msbValue bits < 2 ^ bits.length := by
  induction bits with
  | nil => simp [msbValue]
  | cons b rest ih =>
    simp only [msbValue, List.length_cons, pow_succ]
    cases b <;> simp <;> omega

/-- Adding a multiple of `2 ^ m` does not change bits below `m`. -/
theorem intBit_add_pow_mul (u t : ℤ) (m b : ℕ) (hb : b < m) :
    intBit (2 ^ m * t + u) b = intBit u b := by
  have hsplit : (2 : ℤ) ^ m = 2 ^ b * 2 ^ (m - b) := by
    rw [← pow_add, Nat.add_sub_cancel' hb.le]
  have hb2 : (2 : ℤ) ^ b ≠ 0 := by positivity
  have hdiv : (2 ^ m * t + u) / 2 ^ b = u / 2 ^ b + 2 ^ (m - b) * t := by
    calc (2 ^ m * t + u) / 2 ^ b = (u + 2 ^ b * (2 ^ (m - b) * t)) / 2 ^ b := by
          rw [hsplit]; ring_nf
      _ = u / 2 ^ b + 2 ^ (m - b) * t := Int.add_mul_ediv_left u _ hb2
  have hmb : m - b = (m - b - 1) + 1 := by omega
  have h2 : (2 : ℤ) ^ (m - b) * t = 2 * (2 ^ (m - b - 1) * t) := by
    conv_lhs => rw [hmb]
    rw [pow_succ]; ring
  have heven : (u / 2 ^ b + 2 ^ (m - b) * t) % 2 = u / 2 ^ b % 2 := by
    rw [h2, Int.add_mul_emod_self_left]
  simp only [intBit]
  rw [decide_eq_decide, hdiv, heven]

/-- Bits below `n` only depend on the value modulo `2 ^ n`. -/
theorem intBit_emod (a : ℤ) (n b : ℕ) (hb : b < n) :
    intBit (a % 2 ^ n) b = intBit a b := by
  have ha : a = 2 ^ n * (a / 2 ^ n) + a % 2 ^ n := (Int.ediv_add_emod a (2 ^ n)).symm
  conv_rhs => rw [ha]
  rw [intBit_add_pow_mul _ _ n b hb]

/-- One step of the modulus: `a % 2 ^ (n+1)` splits into bit `n` and `a % 2 ^ n`. -/
theorem emod_pow_succ (a : ℤ) (n : ℕ) :
    a % 2 ^ (n + 1) = (if intBit a n then 2 ^ n else 0) + a % 2 ^ n := by
  have h2n : (0 : ℤ) < 2 ^ n := by positivity
  have hr0 : 0 ≤ a % 2 ^ n := Int.emod_nonneg a (by positivity)
  have hr1 : a % 2 ^ n < 2 ^ n := Int.emod_lt_of_pos a h2n
  have ha : a = 2 ^ n * (a / 2 ^ n) + a % 2 ^ n := (Int.ediv_add_emod a (2 ^ n)).symm
  have hq : a / 2 ^ n = 2 * (a / 2 ^ n / 2) + a / 2 ^ n % 2 :=
    (Int.ediv_add_emod (a / 2 ^ n) 2).symm
  have hsplit : a = (2 ^ n * (a / 2 ^ n % 2) + a % 2 ^ n) + 2 ^ (n + 1) * (a / 2 ^ n / 2) := by
    conv_lhs => rw [ha, hq]
    rw [pow_succ]; ring
  have hmod : a % 2 ^ (n + 1) = 2 ^ n * (a / 2 ^ n % 2) + a % 2 ^ n := by
    conv_lhs => rw [hsplit]
    rw [Int.add_mul_emod_self_left]
    rcases Int.emod_two_eq (a / 2 ^ n) with h | h <;> rw [h] <;>
      refine Int.emod_eq_of_lt (by omega) ?_ <;> rw [pow_succ] <;> omega
  rcases Int.emod_two_eq (a / 2 ^ n) with h | h <;>
    simp [hmod, intBit, h]

/-- Decoding an encoded integer: the MSB-first value of the low `n`
two's-complement bits of `a` is `a % 2 ^ n`. -/
theorem msbValue_intBit_range (n : ℕ) (a : ℤ) :
    (msbValue ((List.range n).reverse.map (fun b => intBit a b)) : ℤ) = a % 2 ^ n := by
  induction n with
  | zero => simp [msbValue]
  | succ n ih =>
    have hlen : ((List.range n).reverse.map (fun b => intBit a b)).length = n := by simp
    rw [List.range_succ, List.reverse_append, List.reverse_singleton,
      List.singleton_append, List.map_cons, emod_pow_succ]
    cases hbit : intBit a n <;>
      simp only [msbValue, hlen, hbit, if_true, if_false, ite_true, ite_false] <;>
      push_cast <;> rw [ih]

/-- `np.round` of an exact integer is that integer. -/
theorem roundHalfEven_intCast (k : ℤ) : roundHalfEven (k : ℚ) = k := by
  simp only [roundHalfEven, Int.floor_intCast]
  norm_num

/-! ## Fixed-point codec lemmas -/

theorem zpow_two_pos (f : ℤ) : (0 : ℚ) < 2 ^ f :=
  zpow_pos (by norm_num) f

/-- Dividing an integer by `2 ^ f` with `f ≤ 0` is exact integer scaling. -/
theorem div_zpow_nonpos (v f : ℤ) (hf : f ≤ 0) :
    ((v : ℚ) / (2 : ℚ) ^ f) = ((v * 2 ^ (-f).toNat : ℤ) : ℚ) := by
  have hm : f = -((-f).toNat : ℤ) := by omega
  conv_lhs => rw [hm]
  rw [zpow_neg, zpow_natCast, div_eq_mul_inv, inv_inv]
  push_cast
  ring

theorem floor_div_zpow_nonpos (v f : ℤ) (hf : f ≤ 0) :
    ((⌊(v : ℚ) / (2 : ℚ) ^ f⌋ : ℤ) : ℚ) = (v : ℚ) / (2 : ℚ) ^ f := by
  rw [div_zpow_nonpos v f hf, Int.floor_intCast]

/-- float64 rounding is the identity on integers of magnitude below
`2 ^ 53` (53 significand bits). -/
theorem fl64_eq_self (n : ℤ) (h1 : -(2 ^ 53) < n) (h2 : n < 2 ^ 53) :
    fl64 n = n := by
  rw [fl64]
  by_cases hn : 0 ≤ n
  · rw [if_pos hn, fl64Nat, if_pos (by omega)]
    omega
  · rw [if_neg hn, fl64Nat, if_pos (by omega)]
    omega

/-- Successful decode, characterized in the exact regime: under the length
assert, a non-empty array (so `boolArray[0]` cannot raise) and a lane
width of at most 53 bits (so every float64 conversion on the path is
exact), `_fixpointFromBoolArray` returns the two's-complement value
divided by `2 ^ fractional`. -/
theorem fixpointFromBoolArray_eq_ok (integer fractional : ℤ) (signed : Bool)
    (bits : List Bool) (h : (bits.length : ℤ) = integer + fractional)
    (hne : bits ≠ []) (hw : bits.length ≤ 53) :
    _fixpointFromBoolArray integer fractional signed bits
      = .ok ((twosValue signed bits : ℚ) / (2 : ℚ) ^ fractional) := by
  have htoNat : (integer + fractional).toNat = bits.length := by omega
  have hu0 : (0 : ℤ) ≤ (msbValue bits : ℤ) := by positivity
  have hu1 : (msbValue bits : ℤ) < 2 ^ 53 := by
    have ha : (msbValue bits : ℤ) < 2 ^ bits.length := by
      exact_mod_cast msbValue_lt bits
    have hb : (2 : ℤ) ^ bits.length ≤ 2 ^ 53 := pow_le_pow_right₀ (by omega) hw
    omega
  have hflu : fl64 (msbValue bits : ℤ) = (msbValue bits : ℤ) :=
    fl64_eq_self _ (by omega) hu1
  have hfinal : ∀ v : ℤ, -(2 ^ 53) < v → v < 2 ^ 53 →
      (if fractional > 0 then
          Except.ok (ε := PyErr) ((fl64 v : ℚ) / (2 : ℚ) ^ fractional)
        else if fractional = 0 then
          .ok ((⌊(v : ℚ) / (2 : ℚ) ^ fractional⌋ : ℤ) : ℚ)
        else .ok ((⌊(fl64 v : ℚ) / (2 : ℚ) ^ fractional⌋ : ℤ) : ℚ))
        = .ok ((v : ℚ) / (2 : ℚ) ^ fractional) := by
    intro v hv1 hv2
    have hfv : fl64 v = v := fl64_eq_self v hv1 hv2
    by_cases hf : fractional > 0
    · rw [if_pos hf, hfv]
    · by_cases hf0 : fractional = 0
      · rw [if_neg hf, if_pos hf0, floor_div_zpow_nonpos v fractional (by omega)]
      · rw [if_neg hf, if_neg hf0, hfv,
          floor_div_zpow_nonpos v fractional (by omega)]
  cases signed with
  | false =>
    simp only [_fixpointFromBoolArray, h, ne_eq, not_true_eq_false, if_neg,
      Bool.false_eq_true, ite_false, if_false, twosValue, false_and]
    simpa using hfinal (msbValue bits : ℤ) (by omega) hu1
  | true =>
    cases bits with
    | nil => exact absurd rfl hne
    | cons b rest =>
      simp only [_fixpointFromBoolArray, h, ne_eq, not_true_eq_false, if_neg,
        ite_true, twosValue, htoNat, List.head?_cons, true_and]
      cases b with
      | false =>
        simpa using hfinal (msbValue (false :: rest) : ℤ) (by omega) hu1
      | true =>
        have hlow : (2 : ℤ) ^ rest.length ≤ (msbValue (true :: rest) : ℤ) := by
          have : msbValue (true :: rest) = 2 ^ rest.length + msbValue rest := by
            simp [msbValue]
          rw [this]
          push_cast
          omega
        have hlen2 : (2 : ℤ) ^ (true :: rest).length = 2 ^ rest.length * 2 := by
          rw [List.length_cons, pow_succ]
        have hrange1 : -(2 ^ 53)
            < (msbValue (true :: rest) : ℤ) - 2 ^ (true :: rest).length := by
          have hr53 : (2 : ℤ) ^ rest.length ≤ 2 ^ 52 := by
            apply pow_le_pow_right₀ (by omega)
            simpa using hw
          omega
        have hrange2 : (msbValue (true :: rest) : ℤ) - 2 ^ (true :: rest).length
            < 2 ^ 53 := by
          have ha : (msbValue (true :: rest) : ℤ) < 2 ^ (true :: rest).length := by
            exact_mod_cast msbValue_lt (true :: rest)
          have hb : (0 : ℤ) < 2 ^ 53 := by positivity
          omega
        rw [hflu]
        simpa using hfinal ((msbValue (true :: rest) : ℤ) - 2 ^ (true :: rest).length)
          hrange1 hrange2

/-- Successful encode, characterized: when the unsigned-negative check
passes, `_fixpointToBoolArray` emits the low `num_bits` two's-complement
bits of the rounded scaled value, most-significant first. -/
theorem fixpointToBoolArray_eq_ok (integer fractional : ℤ) (signed : Bool)
    (value : ℚ) (hok : ¬ (value < 0 ∧ signed = false)) :
    _fixpointToBoolArray integer fractional signed value
      = .ok ((List.range (integer + fractional).toNat).reverse.map
          (fun b => intBit (roundHalfEven (value * (2 : ℚ) ^ fractional)) b)) := by
  simp [_fixpointToBoolArray, hok]

/-- The most-significant bit of a two's-complement value in `[-2^m, 0)`. -/
theorem intBit_msb_neg (k : ℤ) (m : ℕ) (h1 : -(2 ^ m) ≤ k) (h2 : k < 0) :
    intBit k m = true := by
  have hp : (0 : ℤ) < 2 ^ m := by positivity
  have hz : (k + 2 ^ m) / 2 ^ m = 0 := Int.ediv_eq_zero_of_lt (by omega) (by omega)
  have hstep : (k + 2 ^ m * 1) / 2 ^ m = k / 2 ^ m + 1 :=
    Int.add_mul_ediv_left k 1 (by positivity)
  rw [mul_one] at hstep
  have hdiv : k / 2 ^ m = -1 := by omega
  simp [intBit, hdiv]

/-- The most-significant bit of a value in `[0, 2^m)`. -/
theorem intBit_msb_nonneg (k : ℤ) (m : ℕ) (h1 : 0 ≤ k) (h2 : k < 2 ^ m) :
    intBit k m = false := by
  have hdiv : k / 2 ^ m = 0 := Int.ediv_eq_zero_of_lt h1 h2
  simp [intBit, hdiv]

theorem emod_eq_add_pow_of_neg (k : ℤ) (n : ℕ) (h1 : -(2 ^ n) ≤ k) (h2 : k < 0) :
    k % 2 ^ n = k + 2 ^ n := by
  have hstep : (k + 2 ^ n * 1) % 2 ^ n = k % 2 ^ n := by
    rw [Int.add_mul_emod_self_left]
  rw [mul_one] at hstep
  rw [← hstep]
  exact Int.emod_eq_of_lt (by omega) (by omega)

/-- Peeling the most-significant bit off an emitted bit list. -/
theorem intBit_range_succ (a : ℤ) (m : ℕ) :
    (List.range (m + 1)).reverse.map (fun b => intBit a b)
      = intBit a m :: (List.range m).reverse.map (fun b => intBit a b) := by
  rw [List.range_succ, List.reverse_append, List.reverse_singleton,
    List.singleton_append, List.map_cons]

/-- Value-side round trip for one fixed-point lane: encoding a representable
value `k / 2 ^ fractional` and decoding the result returns it exactly. -/
theorem fixpoint_decode_encode (integer fractional : ℤ) (signed : Bool) (k : ℤ)
    (hn : 0 < integer + fractional) (hw : integer + fractional ≤ 53)
    (hrange : if signed then
        -(2 ^ ((integer + fractional).toNat - 1)) ≤ k ∧
          k < 2 ^ ((integer + fractional).toNat - 1)
      else 0 ≤ k ∧ k < 2 ^ (integer + fractional).toNat) :
    (_fixpointToBoolArray integer fractional signed
        ((k : ℚ) * (2 : ℚ) ^ (-fractional))).bind
        (_fixpointFromBoolArray integer fractional signed)
      = .ok ((k : ℚ) * (2 : ℚ) ^ (-fractional)) := by
  set n : ℕ := (integer + fractional).toNat with hnn
  obtain ⟨m, hm⟩ : ∃ m, n = m + 1 := ⟨n - 1, by omega⟩
  set value : ℚ := (k : ℚ) * (2 : ℚ) ^ (-fractional) with hvalue
  have hvk : value * (2 : ℚ) ^ fractional = (k : ℚ) := by
    rw [hvalue, mul_assoc, ← zpow_add₀ (two_ne_zero (α := ℚ)), neg_add_cancel,
      zpow_zero, mul_one]
  have hok : ¬ (value < 0 ∧ signed = false) := by
    rintro ⟨hlt, hsf⟩
    rw [hsf] at hrange
    simp only [Bool.false_eq_true, if_false, ite_false] at hrange
    have hq0 : (0 : ℚ) ≤ value :=
      mul_nonneg (by exact_mod_cast hrange.1) (zpow_two_pos (-fractional)).le
    exact absurd hlt (not_lt.mpr hq0)
  have hround : roundHalfEven (value * (2 : ℚ) ^ fractional) = k := by
    rw [hvk, roundHalfEven_intCast]
  set bits : List Bool := (List.range n).reverse.map (fun b => intBit k b) with hbits
  have henc : _fixpointToBoolArray integer fractional signed value = .ok bits := by
    rw [fixpointToBoolArray_eq_ok integer fractional signed value hok, ← hnn, hround]
  have hlen : bits.length = n := by simp [hbits]
  have hlenz : (bits.length : ℤ) = integer + fractional := by
    rw [hlen]; omega
  have hne : bits ≠ [] := by
    intro habs
    rw [habs] at hlen
    simp at hlen
    omega
  have hu : (msbValue bits : ℤ) = k % 2 ^ n := by
    rw [hbits]; exact msbValue_intBit_range n k
  have hhead : bits.head? = some (intBit k m) := by
    rw [hbits, hm, intBit_range_succ]
    rfl
  have htv : twosValue signed bits = k := by
    cases hs : signed with
    | false =>
      rw [twosValue, if_neg (by simp), hu]
      rw [hs] at hrange
      simp only [if_false, Bool.false_eq_true, ite_false] at hrange
      exact Int.emod_eq_of_lt hrange.1 hrange.2
    | true =>
      rw [hs] at hrange
      simp only [if_true, ite_true] at hrange
      have hmn : n - 1 = m := by omega
      rw [hmn] at hrange
      by_cases hk : 0 ≤ k
      · have hmsb : intBit k m = false :=
          intBit_msb_nonneg k m hk hrange.2
        rw [twosValue, if_neg (by rw [hhead, hmsb]; simp), hu]
        have hk2 : k < 2 ^ n := by
          have : (2 : ℤ) ^ m ≤ 2 ^ n := pow_le_pow_right₀ (by omega) (by omega)
          omega
        exact Int.emod_eq_of_lt hk hk2
      · push_neg at hk
        have hmsb : intBit k m = true := intBit_msb_neg k m hrange.1 hk
        rw [twosValue, if_pos (by rw [hhead, hmsb]; simp), hu, hlen]
        have hkn : -(2 ^ n) ≤ k := by
          have : (2 : ℤ) ^ m ≤ 2 ^ n := pow_le_pow_right₀ (by omega) (by omega)
          omega
        rw [emod_eq_add_pow_of_neg k n hkn hk]
        ring
  have hdec : _fixpointFromBoolArray integer fractional signed bits
      = .ok ((k : ℚ) / (2 : ℚ) ^ fractional) := by
    rw [fixpointFromBoolArray_eq_ok integer fractional signed bits hlenz hne
      (by omega), htv]
  have hvq : (k : ℚ) / (2 : ℚ) ^ fractional = value := by
    rw [hvalue, div_eq_mul_inv, zpow_neg]
  rw [henc]
  simp only [Except.bind]
  rw [hdec, hvq]

/-- Evaluating the decode of a signed, integer-only (`fractional = 0`) lane
whose most-significant bit is set: numpy's promotion of `uint64 - int` to
`float64` makes the result the float64-rounded unsigned sum minus
`2 ^ num_bits`. -/
theorem fixpointFromBoolArray_msb_f0 (integer : ℤ) (rest : List Bool)
    (h : ((true :: rest).length : ℤ) = integer + 0) :
    _fixpointFromBoolArray integer 0 true (true :: rest)
      = .ok (((fl64 (msbValue (true :: rest) : ℤ)
          - 2 ^ (integer + 0).toNat : ℤ) : ℚ)) := by
  simp only [_fixpointFromBoolArray, h, ne_eq, not_true_eq_false, if_neg, ite_true,
    gt_iff_lt, lt_self_iff_false, ite_false, if_true]
  rw [zpow_zero, div_one, Int.floor_intCast]

/-! ## Claims -/

/-- C1, counterexample: the claimed exact round trip fails for the signed
60.0 format at the representable value `-(2^59 - 3)` (which is within the
signed range, first conjunct): on decode, numpy promotes the 60-bit
unsigned sum `2^59 + 3` to `float64`, whose 53-bit significand rounds it
to `2^59` (ties to even), so decoding the encoding returns `-(2^59)`
instead of the original value (last conjunct). -/
theorem claim_C1_counterexample :
    ((0 : ℤ) < 60 + 0 ∧
      -(2 ^ (((60 : ℤ) + 0).toNat - 1)) ≤ (-(2 ^ 59 - 3) : ℤ) ∧
      (-(2 ^ 59 - 3) : ℤ) < 2 ^ (((60 : ℤ) + 0).toNat - 1)) ∧
    (_fixpointToBoolArray 60 0 true
        ((((-(2 ^ 59 - 3) : ℤ)) : ℚ) * (2 : ℚ) ^ (-(0 : ℤ)))).bind
        (_fixpointFromBoolArray 60 0 true)
      = .ok (((-(2 ^ 59 : ℤ)) : ℚ)) ∧
    (Except.ok (((-(2 ^ 59 : ℤ)) : ℚ)) : Except PyErr ℚ)
      ≠ .ok ((((-(2 ^ 59 - 3) : ℤ)) : ℚ) * (2 : ℚ) ^ (-(0 : ℤ))) := by
  refine ⟨by decide, ?_, ?_⟩
  · rw [fixpointToBoolArray_eq_ok 60 0 true _ (by simp)]
    rw [show ((((-(2 ^ 59 - 3) : ℤ)) : ℚ) * (2 : ℚ) ^ (-(0 : ℤ))) * (2 : ℚ) ^ ((0 : ℤ))
        = (((-(2 ^ 59 - 3) : ℤ)) : ℚ) from by
      rw [neg_zero, zpow_zero, mul_one, mul_one]]
    rw [roundHalfEven_intCast]
    rw [show ((List.range ((60 : ℤ) + 0).toNat).reverse.map
        (fun b => intBit (-(2 ^ 59 - 3)) b))
        = true :: (List.replicate 57 false ++ [true, true]) from by decide]
    simp only [Except.bind]
    rw [fixpointFromBoolArray_msb_f0 60 (List.replicate 57 false ++ [true, true])
      (by decide)]
    rw [show fl64 (msbValue (true :: (List.replicate 57 false ++ [true, true])) : ℤ)
        - 2 ^ (((60 : ℤ) + 0)).toNat = -(2 ^ 59 : ℤ) from by decide, Int.cast_neg]
  · intro habs
    have h1 : (((-(2 ^ 59 : ℤ)) : ℚ))
        = (((-(2 ^ 59 - 3) : ℤ)) : ℚ) * (2 : ℚ) ^ (-(0 : ℤ)) := Except.ok.inj habs
    rw [neg_zero, zpow_zero, mul_one] at h1
    have h2 : (-(2 ^ 59 : ℤ)) = (-(2 ^ 59 - 3) : ℤ) := by exact_mod_cast h1
    omega

/-- C1, amended: for every fixed-point format of at most 53 total bits —
where every `float64` conversion on the decode path is exact — and every
representable value, an integer multiple `k / 2 ^ fractional_bits` inside
the signed or unsigned range, decoding the encoding returns the value
exactly.  (For wider formats the float64 rounding of the unsigned sum
breaks the round trip, as the 60-bit counterexample shows.) -/
theorem claim_C1_amended (integer fractional : ℤ) (signed : Bool) (k : ℤ)
    (hn : 0 < integer + fractional) (hw : integer + fractional ≤ 53)
    (hrange : if signed then
        -(2 ^ ((integer + fractional).toNat - 1)) ≤ k ∧
          k < 2 ^ ((integer + fractional).toNat - 1)
      else 0 ≤ k ∧ k < 2 ^ (integer + fractional).toNat) :
    (_fixpointToBoolArray integer fractional signed
        ((k : ℚ) * (2 : ℚ) ^ (-fractional))).bind
        (_fixpointFromBoolArray integer fractional signed)
      = .ok ((k : ℚ) * (2 : ℚ) ^ (-fractional)) :=
  fixpoint_decode_encode integer fractional signed k hn hw hrange

theorem claim_C1_witness :
    (_fixpointToBoolArray 4 4 true ((-8 : ℤ) * (2 : ℚ) ^ (-(4 : ℤ)))).bind
        (_fixpointFromBoolArray 4 4 true)
      = .ok ((-8 : ℤ) * (2 : ℚ) ^ (-(4 : ℤ))) :=
  claim_C1_amended 4 4 true (-8) (by decide) (by decide) (by decide)

/-- C2, counterexample: the claimed decode characterization — the
two's-complement value of the bits divided by `2 ^ fractional_bits` — fails
for a 60-bit signed lane: the bit pattern of the unsigned sum `2^59 + 3`
has two's-complement value `-(2^59 - 3)`, but the program's decode routes
the sum through `float64`, which rounds it to `2^59`, and returns
`-(2^59)`. -/
theorem claim_C2_counterexample :
    _fixpointFromBoolArray 60 0 true (true :: (List.replicate 57 false ++ [true, true]))
        = .ok (((-(2 ^ 59 : ℤ)) : ℚ)) ∧
      ((twosValue true (true :: (List.replicate 57 false ++ [true, true])) : ℤ) : ℚ)
          / (2 : ℚ) ^ ((0 : ℤ)) = (((-(2 ^ 59 - 3) : ℤ)) : ℚ) ∧
      _fixpointFromBoolArray 60 0 true (true :: (List.replicate 57 false ++ [true, true]))
        ≠ .ok (((twosValue true (true :: (List.replicate 57 false ++ [true, true])) : ℤ) : ℚ)
            / (2 : ℚ) ^ ((0 : ℤ))) := by
  have hdec : _fixpointFromBoolArray 60 0 true
      (true :: (List.replicate 57 false ++ [true, true]))
      = .ok (((-(2 ^ 59 : ℤ)) : ℚ)) := by
    rw [fixpointFromBoolArray_msb_f0 60 (List.replicate 57 false ++ [true, true])
      (by decide)]
    rw [show fl64 (msbValue (true :: (List.replicate 57 false ++ [true, true])) : ℤ)
        - 2 ^ (((60 : ℤ) + 0)).toNat = -(2 ^ 59 : ℤ) from by decide, Int.cast_neg]
  have htv : ((twosValue true (true :: (List.replicate 57 false ++ [true, true])) : ℤ) : ℚ)
      / (2 : ℚ) ^ ((0 : ℤ)) = (((-(2 ^ 59 - 3) : ℤ)) : ℚ) := by
    rw [show twosValue true (true :: (List.replicate 57 false ++ [true, true]))
        = -(2 ^ 59 - 3) from by decide, zpow_zero, div_one]
  refine ⟨hdec, htv, ?_⟩
  rw [hdec, htv]
  intro habs
  have h1 : (((-(2 ^ 59 : ℤ)) : ℚ)) = (((-(2 ^ 59 - 3) : ℤ)) : ℚ) := Except.ok.inj habs
  have h2 : (-(2 ^ 59 : ℤ)) = (-(2 ^ 59 - 3) : ℤ) := by exact_mod_cast h1
  omega

/-- C2, amended: for lanes of at most 53 bits — where the `float64`
conversions on the decode path are exact — decode reads the bits MSB-first
as an unsigned integer, subtracts `2 ^ num_bits` exactly when `signed` and
the most-significant bit is 1 (`twosValue`), and divides by
`2 ^ fractional_bits`; the code's integer (floor) division in the
`fractional_bits ≤ 0` branch is exact, so the result equals the true
quotient in every branch.  In particular the signed 8.0 format decodes the
all-ones byte to `-1` and encodes `-1` to all ones.  (Above 53 bits the
float64 rounding makes the characterization fail, as the 60-bit
counterexample shows.) -/
theorem claim_C2_amended (integer fractional : ℤ) (signed : Bool)
    (bits : List Bool) (h : (bits.length : ℤ) = integer + fractional)
    (hne : bits ≠ []) (hw : bits.length ≤ 53) :
    _fixpointFromBoolArray integer fractional signed bits
        = .ok ((twosValue signed bits : ℚ) / (2 : ℚ) ^ fractional) ∧
      _fixpointFromBoolArray 8 0 true (List.replicate 8 true) = .ok (-1) ∧
      _fixpointToBoolArray 8 0 true (-1) = .ok (List.replicate 8 true) := by
  refine ⟨fixpointFromBoolArray_eq_ok integer fractional signed bits h hne hw, ?_, ?_⟩
  · rw [fixpointFromBoolArray_eq_ok 8 0 true (List.replicate 8 true)
      (by decide) (by decide) (by decide),
      show twosValue true (List.replicate 8 true) = -1 from by decide,
      zpow_zero, div_one]
    norm_num
  · rw [fixpointToBoolArray_eq_ok 8 0 true (-1) (by simp),
      show (-1 : ℚ) * (2 : ℚ) ^ ((0 : ℤ)) = ((-1 : ℤ) : ℚ) from by
        rw [zpow_zero, mul_one]; norm_num,
      roundHalfEven_intCast]
    decide

theorem claim_C2_witness :
    (_fixpointFromBoolArray 8 0 true (List.replicate 8 true)
        = .ok ((twosValue true (List.replicate 8 true) : ℚ) / (2 : ℚ) ^ ((0 : ℤ)))) ∧
      _fixpointFromBoolArray 8 0 true (List.replicate 8 true) = .ok (-1) ∧
      _fixpointToBoolArray 8 0 true (-1) = .ok (List.replicate 8 true) :=
  claim_C2_amended 8 0 true (List.replicate 8 true) (by decide) (by decide) (by decide)

/-- C3: when the rounded scaled integer lies outside the representable
signed or unsigned range of `num_bits` bits, encode still succeeds (except
for the unsigned-negative precondition) and silently wraps: the emitted
MSB-first pattern, read back as an unsigned integer, is the scaled integer
reduced modulo `2 ^ num_bits` — two's-complement truncation. -/
theorem claim_C3_wrap (integer fractional : ℤ) (signed : Bool) (value : ℚ)
    (_hn : 0 < integer + fractional)
    (hok : ¬ (value < 0 ∧ signed = false))
    (_hout : roundHalfEven (value * (2 : ℚ) ^ fractional)
          < (if signed then -(2 ^ ((integer + fractional).toNat - 1)) else 0) ∨
        (if signed then 2 ^ ((integer + fractional).toNat - 1) - 1
          else 2 ^ (integer + fractional).toNat - 1)
          < roundHalfEven (value * (2 : ℚ) ^ fractional)) :
    ∃ bits, _fixpointToBoolArray integer fractional signed value = .ok bits ∧
      bits.length = (integer + fractional).toNat ∧
      (msbValue bits : ℤ)
        = roundHalfEven (value * (2 : ℚ) ^ fractional)
            % 2 ^ (integer + fractional).toNat := by
  refine ⟨_, fixpointToBoolArray_eq_ok integer fractional signed value hok, ?_, ?_⟩
  · simp
  · exact msbValue_intBit_range _ _

theorem claim_C3_witness :
    ∃ bits, _fixpointToBoolArray 4 0 false ((20 : ℤ) : ℚ) = .ok bits ∧
      bits.length = ((4 : ℤ) + 0).toNat ∧
      (msbValue bits : ℤ)
        = roundHalfEven (((20 : ℤ) : ℚ) * (2 : ℚ) ^ ((0 : ℤ)))
            % 2 ^ ((4 : ℤ) + 0).toNat :=
  claim_C3_wrap 4 0 false ((20 : ℤ) : ℚ) (by decide) (by decide)
    (Or.inr (by rw [zpow_zero, mul_one, roundHalfEven_intCast]; decide))

/-- C4: with `signed = false`, encoding a negative value fails with the
unsigned-negative `RuntimeError` (the spec's `DomainError`), encoding any
non-negative value never raises it, and in particular the unsigned 8.0
format rejects `-1`. -/
theorem claim_C4_unsigned_negative (integer fractional : ℤ) (value : ℚ) :
    (value < 0 → _fixpointToBoolArray integer fractional false value
        = .error (.runtimeError "Unsigned value cannot create negative number")) ∧
    (0 ≤ value →
      ∃ bits, _fixpointToBoolArray integer fractional false value = .ok bits) ∧
    _fixpointToBoolArray 8 0 false (-1)
        = .error (.runtimeError "Unsigned value cannot create negative number") := by
  refine ⟨?_, ?_, ?_⟩
  · intro hneg
    rw [_fixpointToBoolArray, if_pos ⟨hneg, rfl⟩]
  · intro hpos
    exact ⟨_, fixpointToBoolArray_eq_ok integer fractional false value
      (by rintro ⟨h1, _⟩; exact absurd h1 (not_lt.mpr hpos))⟩
  · rw [_fixpointToBoolArray, if_pos ⟨by decide, rfl⟩]

theorem claim_C4_witness :
    _fixpointToBoolArray 8 0 false (-1)
        = .error (.runtimeError "Unsigned value cannot create negative number") ∧
      ∃ bits, _fixpointToBoolArray 8 0 false 1 = .ok bits :=
  ⟨(claim_C4_unsigned_negative 8 0 (-1)).1 (by decide),
   (claim_C4_unsigned_negative 8 0 1).2.1 (by decide)⟩

theorem fxp40_encode_one :
    _fixpointToBoolArray 4 0 true 1 = .ok [false, false, false, true] := by
  rw [fixpointToBoolArray_eq_ok 4 0 true 1 (by simp),
    show (1 : ℚ) * (2 : ℚ) ^ ((0 : ℤ)) = ((1 : ℤ) : ℚ) from by
      rw [zpow_zero, mul_one]; norm_num,
    roundHalfEven_intCast]
  decide

theorem fxp40_encode_negone :
    _fixpointToBoolArray 4 0 true (-1) = .ok [true, true, true, true] := by
  rw [fixpointToBoolArray_eq_ok 4 0 true (-1) (by simp),
    show (-1 : ℚ) * (2 : ℚ) ^ ((0 : ℤ)) = ((-1 : ℤ) : ℚ) from by
      rw [zpow_zero, mul_one]; norm_num,
    roundHalfEven_intCast]
  decide

/-- `ComplexFixedPointType(4,0).encode(1-1j)`: an 8-bit pattern whose first
4 bits carry the real lane and last 4 bits the imaginary lane. -/
theorem cfxp40_encode_instance :
    (ComplexFixpointDatatype.mk "" 4 0).toBoolArray 1 (-1)
      = .ok [false, false, false, true, true, true, true, true] := by
  rw [ComplexFixpointDatatype.toBoolArray]
  dsimp only
  rw [fxp40_encode_one, fxp40_encode_negone]
  rfl

/-- C5 counterexample: `ComplexFixedPointType(4,0).encode(1-1j)` is 8 bits
in total, so its real lane cannot occupy "the first 8 bits" as the claim
states: the real lane's encoding is the 4-bit `[0,0,0,1]`, which differs
from the first 8 bits (the whole pattern), and the imaginary lane occupies
bits 4..7, not bits 8..15 (there are none). -/
theorem claim_C5_counterexample :
    (ComplexFixpointDatatype.mk "" 4 0).toBoolArray 1 (-1)
        = .ok [false, false, false, true, true, true, true, true] ∧
      _fixpointToBoolArray 4 0 true 1 = .ok [false, false, false, true] ∧
      _fixpointToBoolArray 4 0 true (-1) = .ok [true, true, true, true] ∧
      ([false, false, false, true, true, true, true, true] : List Bool).length = 8 ∧
      ¬ (([false, false, false, true, true, true, true, true] : List Bool).take 8
          = [false, false, false, true]) :=
  ⟨cfxp40_encode_instance, fxp40_encode_one, fxp40_encode_negone, by decide, by decide⟩

/-- C5 (amended): for every `ComplexFixpointDatatype(integer, fractional)`
the encoding has length `num_bits = 2 * (integer + fractional)`; its first
half is exactly the signed fixed-point encoding of the real part and its
second half that of the imaginary part, and decode splits the bits into two
equal halves, decodes each as a signed lane, and returns `real + i*imag`.
In particular `ComplexFixedPointType(4,0).encode(1-1j)` places the real
lane's encoding in the first 4 bits and the imaginary lane's in the last
4 bits (each lane is `integer_bits + fractional_bits = 4` bits wide, not 8). -/
theorem claim_C5_amended (name : String) (integer fractional : ℤ) (re im : ℚ)
    (hn : 0 ≤ integer + fractional) :
    (∃ bre bim,
      _fixpointToBoolArray integer fractional true re = .ok bre ∧
      _fixpointToBoolArray integer fractional true im = .ok bim ∧
      (ComplexFixpointDatatype.mk name integer fractional).toBoolArray re im
          = .ok (bre ++ bim) ∧
      ((bre ++ bim).length : ℤ)
          = (ComplexFixpointDatatype.mk name integer fractional).num_bits ∧
      bre.length = (integer + fractional).toNat) ∧
    (∀ (bits : List Bool) (r q : ℚ),
      _fixpointFromBoolArray integer fractional true
          (bits.take (integer + fractional).toNat) = .ok r →
      _fixpointFromBoolArray integer fractional true
          (bits.drop (integer + fractional).toNat) = .ok q →
      (ComplexFixpointDatatype.mk name integer fractional).fromBoolArray bits
          = .ok (r, q)) ∧
    (ComplexFixpointDatatype.mk "" 4 0).toBoolArray 1 (-1)
        = .ok [false, false, false, true, true, true, true, true] := by
  have e1 := fixpointToBoolArray_eq_ok integer fractional true re (by simp)
  have e2 := fixpointToBoolArray_eq_ok integer fractional true im (by simp)
  refine ⟨⟨_, _, e1, e2, ?_, ?_, ?_⟩, ?_, cfxp40_encode_instance⟩
  · rw [ComplexFixpointDatatype.toBoolArray]
    dsimp only
    rw [e1, e2]
  · simp only [List.length_append, List.length_map, List.length_reverse,
      List.length_range, ComplexFixpointDatatype.num_bits]
    push_cast
    omega
  · simp
  · intro bits r q hr hq
    rw [ComplexFixpointDatatype.fromBoolArray]
    dsimp only [ComplexFixpointDatatype.num_bits]
    rw [show (2 * (integer + fractional) / 2 : ℤ) = integer + fractional from
      Int.mul_ediv_cancel_left _ (by omega)]
    simp only [hr, hq]

theorem claim_C5_witness :
    (∃ bre bim,
      _fixpointToBoolArray 4 0 true 1 = .ok bre ∧
      _fixpointToBoolArray 4 0 true (-1) = .ok bim ∧
      (ComplexFixpointDatatype.mk "" 4 0).toBoolArray 1 (-1) = .ok (bre ++ bim) ∧
      ((bre ++ bim).length : ℤ)
          = (ComplexFixpointDatatype.mk "" 4 0).num_bits ∧
      bre.length = ((4 : ℤ) + 0).toNat) ∧
    (∀ (bits : List Bool) (r q : ℚ),
      _fixpointFromBoolArray 4 0 true (bits.take ((4 : ℤ) + 0).toNat) = .ok r →
      _fixpointFromBoolArray 4 0 true (bits.drop ((4 : ℤ) + 0).toNat) = .ok q →
      (ComplexFixpointDatatype.mk "" 4 0).fromBoolArray bits = .ok (r, q)) ∧
    (ComplexFixpointDatatype.mk "" 4 0).toBoolArray 1 (-1)
        = .ok [false, false, false, true, true, true, true, true] :=
  claim_C5_amended "" 4 0 1 (-1) (by decide)

/-- C6: for either fixed-point tag, `_parseFixpoint` on a text beginning
with the tag's code extracts the total width (hex field at offset 8..12)
and the front offset (hex field at offset 16..20); a front value of at
least `2 ^ 15` is reinterpreted as its negative two's-complement equivalent
`front - 2 ^ 16`; the resulting descriptor has `integer_bits = front`,
`fractional_bits = total - front`, and (for the scalar tag) the signed flag
from the third, decimal field at offset 20..24. -/
theorem claim_C6_parse_fixpoint (t : String) (flattened : List Char)
    (code : String) (fullVal frontVal sgn : ℕ)
    (ht : t = "FXP" ∨ t = "CFXP")
    (hcode : TYPE_TO_NUMBER t = some code)
    (hpre : flattened.take 4 = code.toList)
    (hfull : pyIntHex? ((flattened.drop 8).take 4) = some fullVal)
    (hfront : pyIntHex? ((flattened.drop 16).take 4) = some frontVal)
    (hsgn : pyIntDec? ((flattened.drop 20).take 4) = some sgn) :
    ∃ r, _parseFixpoint t flattened = .ok r ∧
      r.integerBits
        = (if 2 ^ 15 ≤ (frontVal : ℤ) then (frontVal : ℤ) - 2 ^ 16
            else (frontVal : ℤ)) ∧
      r.fractionalBits
        = (fullVal : ℤ) -
            (if 2 ^ 15 ≤ (frontVal : ℤ) then (frontVal : ℤ) - 2 ^ 16
              else (frontVal : ℤ)) ∧
      (t = "FXP" → r.isSigned = decide (sgn ≠ 0)) ∧
      (t = "CFXP" → ∃ d, r = .cfxp d) := by
  have hiff : ((frontVal : ℤ) > 2 ^ 15 - 1) ↔ (2 ^ 15 ≤ (frontVal : ℤ)) := by omega
  rcases ht with rfl | rfl
  · have hc : code = "405F" := by
      rw [show TYPE_TO_NUMBER "FXP" = some "405F" from by decide] at hcode
      exact (Option.some_inj.mp hcode).symm
    subst hc
    rw [_parseFixpoint]
    simp only [show TYPE_TO_NUMBER "FXP" = some "405F" from by decide]
    rw [if_neg (by simp [hpre])]
    simp only [hsgn, hfull, hfront]
    rw [if_pos trivial]
    by_cases hge : 2 ^ 15 ≤ (frontVal : ℤ)
    · rw [if_pos (hiff.mpr hge)]
      exact ⟨_, rfl,
        by simp only [ElementType.integerBits]; rw [if_pos hge],
        by simp only [ElementType.fractionalBits]; rw [if_pos hge],
        fun _ => by simp [ElementType.isSigned],
        fun habs => absurd habs (by decide)⟩
    · rw [if_neg (fun habs => hge (hiff.mp habs))]
      exact ⟨_, rfl,
        by simp only [ElementType.integerBits]; rw [if_neg hge],
        by simp only [ElementType.fractionalBits]; rw [if_neg hge],
        fun _ => by simp [ElementType.isSigned],
        fun habs => absurd habs (by decide)⟩
  · have hc : code = "405E" := by
      rw [show TYPE_TO_NUMBER "CFXP" = some "405E" from by decide] at hcode
      exact (Option.some_inj.mp hcode).symm
    subst hc
    rw [_parseFixpoint]
    simp only [show TYPE_TO_NUMBER "CFXP" = some "405E" from by decide]
    rw [if_neg (by simp [hpre])]
    simp only [hsgn, hfull, hfront]
    rw [if_pos trivial]
    by_cases hge : 2 ^ 15 ≤ (frontVal : ℤ)
    · rw [if_pos (hiff.mpr hge)]
      exact ⟨_, rfl,
        by simp only [ElementType.integerBits]; rw [if_pos hge],
        by simp only [ElementType.fractionalBits]; rw [if_pos hge],
        fun habs => absurd habs (by decide), fun _ => ⟨_, rfl⟩⟩
    · rw [if_neg (fun habs => hge (hiff.mp habs))]
      exact ⟨_, rfl,
        by simp only [ElementType.integerBits]; rw [if_neg hge],
        by simp only [ElementType.fractionalBits]; rw [if_neg hge],
        fun habs => absurd habs (by decide), fun _ => ⟨_, rfl⟩⟩

theorem claim_C6_witness :
    ∃ r, _parseFixpoint "FXP" "405Fxxxx0010yyyyFFFF0001".toList = .ok r ∧
      r.integerBits
        = (if 2 ^ 15 ≤ ((65535 : ℕ) : ℤ) then ((65535 : ℕ) : ℤ) - 2 ^ 16
            else ((65535 : ℕ) : ℤ)) ∧
      r.fractionalBits
        = ((16 : ℕ) : ℤ) -
            (if 2 ^ 15 ≤ ((65535 : ℕ) : ℤ) then ((65535 : ℕ) : ℤ) - 2 ^ 16
              else ((65535 : ℕ) : ℤ)) ∧
      ("FXP" = "FXP" → r.isSigned = decide ((1 : ℕ) ≠ 0)) ∧
      ("FXP" = "CFXP" → ∃ d, r = .cfxp d) :=
  claim_C6_parse_fixpoint "FXP" "405Fxxxx0010yyyyFFFF0001".toList "405F" 16 65535 1
    (Or.inl rfl) (by decide) (by decide) (by decide) (by decide) (by decide)

/-- C7: building a `ClusterDatatype` from field names, parsed element types
and the hardware-declared bit count fails with the size-mismatch assertion
(the spec's `SizeMismatchError(computed, declared)`) exactly when the sum of
the element widths differs from the declared count, and otherwise yields a
cluster whose `num_bits` is that sum.  In particular widths 8 + 8 + 10 = 26
against a declared 24 fail with `SizeMismatchError(26, 24)`. -/
theorem zip_num_bits_sum : ∀ (names : List String) (tds : List ElementType),
    names.length = tds.length →
    ((names.zip tds).map (fun e => e.2.num_bits)).sum
      = (tds.map ElementType.num_bits).sum := by
  intro names
  induction names with
  | nil =>
    intro tds h
    cases tds with
    | nil => rfl
    | cons t ts => simp at h
  | cons n ns ih =>
    intro tds h
    cases tds with
    | nil => simp at h
    | cons t ts =>
      simp only [List.zip_cons_cons, List.map_cons, List.sum_cons]
      rw [ih ts (by simpa using h)]

theorem claim_C7_size_mismatch (names : List String)
    (typeDetails : List ElementType) (declared : ℤ) (clusterName : String)
    (hlen : names.length = typeDetails.length) :
    ((typeDetails.map ElementType.num_bits).sum ≠ declared →
      parseFlattenedClusterCore names typeDetails declared clusterName
        = .error (.assertionError
            (bitcountMsg (typeDetails.map ElementType.num_bits).sum declared
              clusterName))) ∧
    ((typeDetails.map ElementType.num_bits).sum = declared →
      ∃ c, parseFlattenedClusterCore names typeDetails declared clusterName
          = .ok c ∧
        c.num_bits = (typeDetails.map ElementType.num_bits).sum) := by
  constructor
  · intro hne
    rw [parseFlattenedClusterCore, if_pos hne]
  · intro heq
    rw [parseFlattenedClusterCore, if_neg (by omega)]
    refine ⟨_, rfl, ?_⟩
    rw [ClusterDatatype.num_bits]
    exact zip_num_bits_sum names typeDetails hlen

theorem claim_C7_witness :
    parseFlattenedClusterCore ["a", "b", "c"]
        [.fxp ⟨"", 8, 0, true⟩, .fxp ⟨"", 8, 0, false⟩, .cfxp ⟨"", 2, 3⟩]
        24 "X"
      = .error (.assertionError (bitcountMsg 26 24 "X")) :=
  (show ((([.fxp ⟨"", 8, 0, true⟩, .fxp ⟨"", 8, 0, false⟩, .cfxp ⟨"", 2, 3⟩]
      : List ElementType).map ElementType.num_bits).sum = 26) from by decide) ▸
    (claim_C7_size_mismatch ["a", "b", "c"]
      [.fxp ⟨"", 8, 0, true⟩, .fxp ⟨"", 8, 0, false⟩, .cfxp ⟨"", 2, 3⟩]
      24 "X" (by decide)).1 (by decide)

/-- C8: `_parseCluster` matches tag codes left-to-right monotonically — once
a code is found at `pos` the text is truncated to start there, the element
is parsed from the truncated text, and the next search starts past the
code's length.  When the next tag's code occurs only out of declared order
(so it cannot be found in the remaining text), the parse fails with the
could-not-find error (the spec's `FieldNotFoundError(tag, position)`) at
that ordinal rather than silently misaligning fields. -/
theorem claim_C8_ordering (t1 t2 : String) (rest : List String)
    (flattened : List Char) (p : ℕ) (c1 c2 : String) (pos : ℕ) (e : ElementType)
    (h1 : TYPE_TO_NUMBER t1 = some c1)
    (h2 : TYPE_TO_NUMBER t2 = some c2)
    (hfind : pyFind flattened c1.toList = some pos)
    (helem : parseClusterElem t1 (flattened.drop pos) = .ok e)
    (hmiss : pyFind ((flattened.drop pos).drop c1.toList.length) c2.toList
      = none) :
    parseClusterAux (t1 :: t2 :: rest) flattened p
      = .error (.runtimeError (couldNotFindMsg t2 (p + 1))) := by
  simp only [parseClusterAux, h1, h2, hfind, helem, hmiss]

theorem claim_C8_witness :
    parseClusterAux ["I8", "I16"] "40024001xxxx".toList 0
      = .error (.runtimeError (couldNotFindMsg "I16" 1)) :=
  claim_C8_ordering "I8" "I16" [] "40024001xxxx".toList 0 "4001" "4002" 4
    (.fxp ⟨"t", 8, 0, true⟩) (by decide) (by decide) (by decide) (by decide)
    (by decide)

/-- C9 counterexample: the claim says a zero-width fixed-point descriptor
fails at construction and every constructed `FixpointDatatype` satisfies
`num_bits > 0`.  The source constructor performs no validation at all:
`FixpointDatatype("", 0, 0, signed=True)` constructs successfully and its
`num_bits` is `0`, violating the claimed invariant. -/
theorem claim_C9_counterexample :
    ¬ 0 < (FixpointDatatype.mk "" 0 0 true).num_bits := by decide

/-- C9 (amended): `FixpointDatatype.__init__` performs no validation:
construction always succeeds, `num_bits = integer_bits + fractional_bits`
for every constructed descriptor, and in particular the zero-width
descriptor `(0, 0)` is accepted with `num_bits = 0` rather than failing. -/
theorem claim_C9_amended (name : String) (integer fractional : ℤ)
    (signed : Bool) :
    (FixpointDatatype.mk name integer fractional signed).num_bits
        = integer + fractional ∧
      (FixpointDatatype.mk "" 0 0 true).num_bits = 0 :=
  ⟨rfl, rfl⟩

